import Mathlib

/-!
Verification of the posts API layer (`src/server/api/routers/posts.ts` and
`src/server/helpers/ssgHelper.ts`) as a shallow embedding.

External collaborators (the relational store, the identity directory, the
rate limiter's hit log) are modelled as explicit values threaded through the
operations; asynchronous calls become ordinary function calls, and thrown
`TRPCError`s become `Except` errors.
-/

namespace VercelDemo

/-- A `Post` row of the relational store: `id`, `content`, `authorId`
(a foreign reference to an external identity) and `createdAt` timestamp
(seconds). Mirrors the Prisma `Post` model used by `posts.ts`. -/
structure Post where
  id : Nat
  authorId : String
  content : String
  createdAt : Nat
  deriving Repr, DecidableEq

/-- A user record of the external identity directory (Clerk), with both
client-safe and non-public fields. -/
structure User where
  id : String
  username : String
  privateEmail : String
  deriving Repr, DecidableEq

/-- The client-safe projection of a user record (the author profile attached
to posts). -/
structure Author where
  id : String
  username : String
  deriving Repr, DecidableEq

/-- Modelled from the spec: `filterUsersForClient` lives in
`src/server/helpers/filterUserForClient.ts`, which is not part of the given
sources; per the spec it "projects each to a public-safe profile", keeping
the identifier and dropping non-public fields. -/
def filterUsersForClient (u : User) : Author :=
  { id := u.id, username := u.username }

/-- The error codes thrown by the router: `TRPCError` codes
`INTERNAL_SERVER_ERROR` and `TOO_MANY_REQUESTS` from `posts.ts`, plus the
validation rejection produced by the zod input schema and the rejection of
unauthenticated callers by `privateProcedure`. -/
inductive ErrCode where
  | internalServerError
  | tooManyRequests
  | badRequest
  | unauthorizedCaller
  deriving Repr, DecidableEq

/-- A post paired with its resolved author profile, as returned by the
queries of `posts.ts`. -/
structure FullPost where
  post : Post
  author : Author
  deriving Repr, DecidableEq

/-- `clerkClient.users.getUserList({ userId, limit })`: the identity
directory returns the records whose id is among the requested ids, capped at
`limit`. -/
def getUserList (directory : List User) (userIds : List String) (limit : Nat) :
    List User :=
  (directory.filter (fun u => userIds.contains u.id)).take limit

/-- `clerkClient.users.getUser(id)`: resolve a single user by id. -/
def getUser (directory : List User) (id : String) : Option User :=
  directory.find? (fun u => u.id == id)

/-- The batch of client-safe profiles fetched by `addUserDataToPosts`:
`getUserList` over the posts' author ids with `limit: 100`, mapped through
`filterUsersForClient`. -/
def fetchedAuthors (directory : List User) (posts : List Post) : List Author :=
  (getUserList directory (posts.map (·.authorId)) 100).map filterUsersForClient

/-- The `posts.map` body of `addUserDataToPosts`: pair each post with the
profile of matching id found in the fetched batch; if any post has no match,
the whole map throws `INTERNAL_SERVER_ERROR` ("Author for post not found"). -/
def lookupAuthors (users : List Author) : List Post → Except ErrCode (List FullPost)
  | [] => .ok []
  | post :: rest =>
    match users.find? (fun u => u.id == post.authorId) with
    | none => .error .internalServerError
    | some author =>
      match lookupAuthors users rest with
      | .error e => .error e
      | .ok fullPosts => .ok ({ post := post, author := author } :: fullPosts)

/-- `addUserDataToPosts(posts)`: batch-fetch the authors' profiles and pair
every post with its matching profile, all-or-nothing. -/
def addUserDataToPosts (directory : List User) (posts : List Post) :
    Except ErrCode (List FullPost) :=
  lookupAuthors (fetchedAuthors directory posts) posts

/-- Insert a post into a list kept sorted by descending `createdAt`. -/
def insertDesc (p : Post) : List Post → List Post
  | [] => [p]
  | q :: rest =>
    if q.createdAt ≤ p.createdAt then p :: q :: rest
    else q :: insertDesc p rest

/-- Sort posts by descending `createdAt` (the store's
`orderBy: [{ createdAt: "desc" }]`). -/
def sortByCreatedAtDesc : List Post → List Post
  | [] => []
  | p :: rest => insertDesc p (sortByCreatedAtDesc rest)

/-- `ctx.prisma.post.findMany({ take, orderBy: [{ createdAt: "desc" }] })`
over the store, optionally filtered beforehand: sort by descending
`createdAt` and keep the first `takeN` rows. -/
def findManyDesc (store : List Post) (takeN : Nat) : List Post :=
  (sortByCreatedAtDesc store).take takeN

/-- `getAll`: fetch up to 100 most recent posts and enrich them. -/
def getAll (store : List Post) (directory : List User) :
    Except ErrCode (List FullPost) :=
  addUserDataToPosts directory (findManyDesc store 100)

/-- `getPostsByUserId({ id })`: resolve the user, fail with an internal
error when not found; otherwise fetch up to 100 of that author's posts,
newest first, and enrich them. -/
def getPostsByUserId (store : List Post) (directory : List User) (id : String) :
    Except ErrCode (List FullPost) :=
  match getUser directory id with
  | none => .error .internalServerError
  | some author =>
    addUserDataToPosts directory
      (findManyDesc (store.filter (fun p => p.authorId == author.id)) 100)

/-- The rate limiter's hit log: one `(key, timestamp)` entry per successful
consumption, held by the hosted service. -/
abbrev RatelimitState := List (String × Nat)

/-- Modelled from the spec: the hosted sliding-window limiter behind
`ratelimit.limit(key)` is external (`Ratelimit.slidingWindow(3, "1 m")` is
only configured here); per the spec it is "a policy permitting at most N
operations per key within any rolling time window of fixed length", with
N = 3 and a 60-second window. A call succeeds, recording a hit, iff fewer
than 3 hits for the key lie within the last 60 seconds. -/
def ratelimitLimit (st : RatelimitState) (key : String) (now : Nat) :
    Bool × RatelimitState :=
  let recent := st.filter (fun h => h.1 == key && now < h.2 + 60)
  if recent.length < 3 then (true, (key, now) :: st)
  else (false, st)

/-- The request context: `currentUserId` is the authenticated caller's
identity, or `none` for an unauthenticated request (as in the server-side
prefetch helper's context). -/
structure Ctx where
  currentUserId : Option String
  deriving Repr, DecidableEq

/-- The mutable world of a `create` call: the post store and the rate
limiter's hit log. -/
structure AppState where
  posts : List Post
  ratelimit : RatelimitState

/-- The zod input schema of `create`:
`z.string().min(1, ...).max(255, ...)` on `content`. -/
def contentValid (content : String) : Bool :=
  1 ≤ content.length && content.length ≤ 255

/-- `createServerSideHelpers` context from `ssgHelper.ts`: bound to the
store with no authenticated user. -/
def ssgCtx : Ctx := { currentUserId := none }

/-- The `create` mutation pipeline: validate the input against the zod
schema, reject unauthenticated callers (`privateProcedure`, modelled from
the spec since `trpc.ts` is not among the given sources: "requires an
authenticated caller"), consult the rate limiter keyed by the caller's id,
and on success insert one row (id and `createdAt` assigned by the store) and
return it without author enrichment. Returns the result and the new world. -/
def create (st : AppState) (ctx : Ctx) (content : String) (now : Nat) :
    Except ErrCode Post × AppState :=
  if contentValid content then
    match ctx.currentUserId with
    | none => (.error .unauthorizedCaller, st)
    | some authorId =>
      match ratelimitLimit st.ratelimit authorId now with
      | (true, rl) =>
        let post : Post :=
          { id := st.posts.length, authorId := authorId,
            content := content, createdAt := now }
        (.ok post, { posts := st.posts ++ [post], ratelimit := rl })
      | (false, rl) =>
        (.error .tooManyRequests, { posts := st.posts, ratelimit := rl })
  else
    (.error .badRequest, st)

section Helpers

/-- If `lookupAuthors` succeeds, the result pairs exactly the input posts in
order, each with the profile `find?` locates for its author id. -/
theorem lookupAuthors_ok_map (users : List Author) :
    ∀ (posts : List Post) (fps : List FullPost),
      lookupAuthors users posts = .ok fps →
      fps.map (·.post) = posts ∧
        ∀ fp ∈ fps, users.find? (fun u => u.id == fp.post.authorId) = some fp.author := by
  intro posts
  induction posts with
  | nil =>
    intro fps h
    simp only [lookupAuthors, Except.ok.injEq] at h
    subst h
    simp
  | cons p rest ih =>
    intro fps h
    simp only [lookupAuthors] at h
    cases hfind : users.find? (fun u => u.id == p.authorId) with
    | none => rw [hfind] at h; exact absurd h (by simp)
    | some author =>
      rw [hfind] at h
      cases hrec : lookupAuthors users rest with
      | error e => rw [hrec] at h; exact absurd h (by simp)
      | ok fps' =>
        rw [hrec] at h
        simp only [Except.ok.injEq] at h
        subst h
        obtain ⟨hmap, hfound⟩ := ih fps' hrec
        refine ⟨by simpa using hmap, ?_⟩
        intro fp hfp
        rcases List.mem_cons.mp hfp with rfl | hmem
        · exact hfind
        · exact hfound fp hmem

/-- If some post's author id has no match among the profiles, `lookupAuthors`
throws the internal error. -/
theorem lookupAuthors_error_of_missing (users : List Author) :
    ∀ posts : List Post,
      (∃ p ∈ posts, users.find? (fun u => u.id == p.authorId) = none) →
      lookupAuthors users posts = .error .internalServerError := by
  intro posts
  induction posts with
  | nil => rintro ⟨q, hq, -⟩; exact absurd hq (by simp)
  | cons p rest ih =>
    rintro ⟨q, hq, hnone⟩
    rcases List.mem_cons.mp hq with rfl | hmem
    · simp [lookupAuthors, hnone]
    · cases hfind : users.find? (fun u => u.id == p.authorId) with
      | none => simp [lookupAuthors, hfind]
      | some a => simp [lookupAuthors, hfind, ih ⟨q, hmem, hnone⟩]

/-- If every post's author id has a match among the profiles, `lookupAuthors`
succeeds. -/
theorem lookupAuthors_ok_of_found (users : List Author) :
    ∀ posts : List Post,
      (∀ p ∈ posts, (users.find? (fun u => u.id == p.authorId)).isSome = true) →
      ∃ fps, lookupAuthors users posts = .ok fps := by
  intro posts
  induction posts with
  | nil => intro _; exact ⟨[], rfl⟩
  | cons p rest ih =>
    intro hall
    have hp := hall p (List.mem_cons_self p rest)
    cases hfind : users.find? (fun u => u.id == p.authorId) with
    | none => rw [hfind] at hp; exact absurd hp (by simp)
    | some a =>
      obtain ⟨fps', hfps'⟩ := ih (fun q hq => hall q (List.mem_cons_of_mem p hq))
      refine ⟨{ post := p, author := a } :: fps', ?_⟩
      simp [lookupAuthors, hfind, hfps']

/-- Membership through `insertDesc`. -/
theorem mem_insertDesc {p q : Post} {l : List Post} :
    q ∈ insertDesc p l ↔ q = p ∨ q ∈ l := by
  induction l with
  | nil => simp [insertDesc]
  | cons r rest ih =>
    simp only [insertDesc]
    split
    · simp
    · simp only [List.mem_cons, ih]
      tauto

/-- `insertDesc` preserves descending sortedness. -/
theorem pairwise_insertDesc {p : Post} {l : List Post}
    (h : List.Pairwise (fun a b => b.createdAt ≤ a.createdAt) l) :
    List.Pairwise (fun a b => b.createdAt ≤ a.createdAt) (insertDesc p l) := by
  induction l with
  | nil => simp [insertDesc]
  | cons r rest ih =>
    obtain ⟨hr, hrest⟩ := List.pairwise_cons.mp h
    simp only [insertDesc]
    split
    · rename_i hle
      refine List.pairwise_cons.mpr ⟨?_, h⟩
      intro x hx
      rcases List.mem_cons.mp hx with rfl | hx
      · exact hle
      · exact le_trans (hr x hx) hle
    · rename_i hgt
      refine List.pairwise_cons.mpr ⟨?_, ih hrest⟩
      intro x hx
      rcases mem_insertDesc.mp hx with rfl | hx
      · omega
      · exact hr x hx

/-- Membership through `sortByCreatedAtDesc`. -/
theorem mem_sortByCreatedAtDesc {q : Post} {l : List Post} :
    q ∈ sortByCreatedAtDesc l ↔ q ∈ l := by
  induction l with
  | nil => simp [sortByCreatedAtDesc]
  | cons r rest ih =>
    simp [sortByCreatedAtDesc, mem_insertDesc, ih]

/-- `sortByCreatedAtDesc` sorts by descending creation time. -/
theorem pairwise_sortByCreatedAtDesc (l : List Post) :
    List.Pairwise (fun a b => b.createdAt ≤ a.createdAt) (sortByCreatedAtDesc l) := by
  induction l with
  | nil => simp [sortByCreatedAtDesc]
  | cons r rest ih => exact pairwise_insertDesc ih

/-- `findManyDesc` returns at most `takeN` rows. -/
theorem findManyDesc_length_le (store : List Post) (takeN : Nat) :
    (findManyDesc store takeN).length ≤ takeN := by
  simp [findManyDesc]

/-- `findManyDesc` returns rows sorted by descending creation time. -/
theorem findManyDesc_sorted (store : List Post) (takeN : Nat) :
    List.Pairwise (fun a b => b.createdAt ≤ a.createdAt) (findManyDesc store takeN) :=
  List.Pairwise.sublist (List.take_sublist takeN _) (pairwise_sortByCreatedAtDesc store)

/-- Every row returned by `findManyDesc` comes from the store. -/
theorem findManyDesc_mem (store : List Post) (takeN : Nat) {p : Post}
    (hp : p ∈ findManyDesc store takeN) : p ∈ store :=
  mem_sortByCreatedAtDesc.mp ((List.take_sublist takeN _).subset hp)

end Helpers

/-- Sample identity-directory record for concrete evaluations. -/
def sampleUser : User :=
  { id := "alice", username := "alice", privateEmail := "alice@example.com" }

/-- Sample post by `sampleUser` for concrete evaluations. -/
def samplePost : Post :=
  { id := 0, authorId := "alice", content := "hi", createdAt := 5 }

/-- Sample client-safe profile of `sampleUser`. -/
def sampleAuthor : Author := { id := "alice", username := "alice" }

/-- C1: if any post's `authorId` has no matching record in the batch fetched
from the identity directory, `addUserDataToPosts` fails entirely with the
internal error and returns no partial list; and every `FullPost` of a
successful result carries an author — the profile the batch matched to its
post's `authorId`. -/
theorem addUserDataToPosts_all_or_nothing (directory : List User) (posts : List Post) :
    ((∃ p ∈ posts,
        (fetchedAuthors directory posts).find? (fun u => u.id == p.authorId) = none) →
      addUserDataToPosts directory posts = .error .internalServerError) ∧
    (∀ fps, addUserDataToPosts directory posts = .ok fps →
      ∀ fp ∈ fps, fp.author.id = fp.post.authorId ∧
        (fetchedAuthors directory posts).find? (fun u => u.id == fp.post.authorId) =
          some fp.author) := by
  constructor
  · intro h
    exact lookupAuthors_error_of_missing _ posts h
  · intro fps h fp hfp
    obtain ⟨-, hfound⟩ := lookupAuthors_ok_map _ posts fps h
    have hfp' := hfound fp hfp
    refine ⟨?_, hfp'⟩
    simpa using List.find?_some hfp'

/-- C1 witness: with an empty directory, enriching one post fails with the
internal error. -/
theorem addUserDataToPosts_all_or_nothing_witness :
    addUserDataToPosts [] [samplePost] = .error .internalServerError :=
  (addUserDataToPosts_all_or_nothing [] [samplePost]).1
    ⟨samplePost, by decide, by decide⟩

/-- C2: whenever `getAll` succeeds, it returns at most 100 `FullPost`s,
ordered by descending creation time. -/
theorem getAll_limit_and_order (store : List Post) (directory : List User)
    (fps : List FullPost) (h : getAll store directory = .ok fps) :
    fps.length ≤ 100 ∧
      List.Pairwise (fun a b => b.post.createdAt ≤ a.post.createdAt) fps := by
  simp only [getAll, addUserDataToPosts] at h
  obtain ⟨hmap, -⟩ := lookupAuthors_ok_map _ _ fps h
  constructor
  · have hlen := congrArg List.length hmap
    simp only [List.length_map] at hlen
    rw [hlen]
    exact findManyDesc_length_le store 100
  · have hs := findManyDesc_sorted store 100
    rw [← hmap] at hs
    exact List.pairwise_map.mp hs

/-- C2 witness: on a two-post store with matching directory, `getAll` yields
two posts, newest first. -/
theorem getAll_limit_and_order_witness :
    ([⟨{ samplePost with id := 1, createdAt := 9 }, sampleAuthor⟩,
       ⟨samplePost, sampleAuthor⟩] : List FullPost).length ≤ 100 ∧
      List.Pairwise (fun a b : FullPost => b.post.createdAt ≤ a.post.createdAt)
        [⟨{ samplePost with id := 1, createdAt := 9 }, sampleAuthor⟩,
         ⟨samplePost, sampleAuthor⟩] :=
  getAll_limit_and_order [samplePost, { samplePost with id := 1, createdAt := 9 }]
    [sampleUser]
    [⟨{ samplePost with id := 1, createdAt := 9 }, sampleAuthor⟩,
     ⟨samplePost, sampleAuthor⟩] rfl

/-- C10: on every input on which enrichment succeeds, `addUserDataToPosts`
returns a list of the same length and order as the input, pairing the i-th
post with the profile whose id equals that post's `authorId`. -/
theorem addUserDataToPosts_preserves_order (directory : List User)
    (posts : List Post) (fps : List FullPost)
    (h : addUserDataToPosts directory posts = .ok fps) :
    fps.length = posts.length ∧ fps.map (·.post) = posts ∧
      ∀ i (hi : i < fps.length) (hp : i < posts.length),
        fps[i].post = posts[i] ∧ fps[i].author.id = posts[i].authorId := by
  obtain ⟨hmap, hfound⟩ := lookupAuthors_ok_map _ posts fps h
  subst hmap
  refine ⟨by simp, rfl, ?_⟩
  intro i hi hp
  have hmem : fps[i] ∈ fps := List.getElem_mem hi
  have hbeq := List.find?_some (hfound _ hmem)
  simp only [beq_iff_eq] at hbeq
  simp [List.getElem_map, hbeq]

/-- C10 witness: one post, one matching user — same length, same order,
author id paired. -/
theorem addUserDataToPosts_preserves_order_witness :
    ([⟨samplePost, sampleAuthor⟩] : List FullPost).length = [samplePost].length ∧
      ([⟨samplePost, sampleAuthor⟩] : List FullPost).map (·.post) = [samplePost] :=
  ⟨(addUserDataToPosts_preserves_order [sampleUser] [samplePost]
      [⟨samplePost, sampleAuthor⟩] rfl).1,
   (addUserDataToPosts_preserves_order [sampleUser] [samplePost]
      [⟨samplePost, sampleAuthor⟩] rfl).2.1⟩

/-- C5: `getPostsByUserId` fails with the internal error when the identifier
matches no user; when it matches a user, it returns (successfully) at most
100 of that author's posts, newest first, enriched as `FullPost`s. -/
theorem getPostsByUserId_spec (store : List Post) (directory : List User)
    (id : String) :
    (getUser directory id = none →
      getPostsByUserId store directory id = .error .internalServerError) ∧
    (∀ u, getUser directory id = some u →
      ∃ fps, getPostsByUserId store directory id = .ok fps ∧
        fps.length ≤ 100 ∧
        List.Pairwise (fun a b => b.post.createdAt ≤ a.post.createdAt) fps ∧
        ∀ fp ∈ fps, fp.post.authorId = u.id) := by
  constructor
  · intro h
    simp [getPostsByUserId, h]
  · intro u hu
    set posts := findManyDesc (store.filter (fun p => p.authorId == u.id)) 100
      with hposts
    have hall : ∀ p ∈ posts, p.authorId = u.id := by
      intro p hp
      have := List.mem_filter.mp (findManyDesc_mem _ _ hp)
      simpa using this.2
    have hsome : ∀ p ∈ posts,
        ((fetchedAuthors directory posts).find?
          (fun a => a.id == p.authorId)).isSome = true := by
      intro p hp
      apply List.find?_isSome.mpr
      have hmemdir : u ∈ directory := List.mem_of_find?_eq_some hu
      have hidmem : u.id ∈ posts.map (·.authorId) := by
        have h' := List.mem_map_of_mem (·.authorId) hp
        simp only at h'
        rwa [hall p hp] at h'
      have hufilter : u ∈ directory.filter
          (fun d => (posts.map (·.authorId)).contains d.id) := by
        refine List.mem_filter.mpr ⟨hmemdir, ?_⟩
        exact List.contains_iff_exists_mem_beq.mpr ⟨u.id, hidmem, by simp⟩
      have hpos : 0 < ((directory.filter
          (fun d => (posts.map (·.authorId)).contains d.id)).take 100).length := by
        rw [List.length_take]
        have := List.length_pos.mpr (List.ne_nil_of_mem hufilter)
        omega
      obtain ⟨w, hw⟩ := List.exists_mem_of_length_pos hpos
      have hwfilter := (List.take_sublist 100 _).subset hw
      have hwid : w.id = u.id := by
        have hwc := (List.mem_filter.mp hwfilter).2
        obtain ⟨a, ha, hbeq⟩ := List.contains_iff_exists_mem_beq.mp hwc
        obtain ⟨q, hq, hqa⟩ := List.mem_map.mp ha
        have : w.id = a := by simpa using hbeq
        rw [this, ← hqa]
        exact hall q hq
      refine ⟨filterUsersForClient w, ?_, ?_⟩
      · exact List.mem_map_of_mem filterUsersForClient hw
      · simp [filterUsersForClient, hwid, hall p hp]
    obtain ⟨fps, hfps⟩ := lookupAuthors_ok_of_found _ posts hsome
    obtain ⟨hmap, -⟩ := lookupAuthors_ok_map _ posts fps hfps
    refine ⟨fps, ?_, ?_, ?_, ?_⟩
    · simp only [getPostsByUserId, hu, addUserDataToPosts]
      exact hfps
    · have := congrArg List.length hmap
      simp only [List.length_map] at this
      rw [this, hposts]
      exact findManyDesc_length_le _ 100
    · have hs := findManyDesc_sorted (store.filter (fun p => p.authorId == u.id)) 100
      rw [← hposts, ← hmap] at hs
      exact List.pairwise_map.mp hs
    · intro fp hfp
      have : fp.post ∈ posts := by
        rw [← hmap]
        exact List.mem_map_of_mem _ hfp
      exact hall _ this

/-- C5 witness: resolving the sample user succeeds and yields that author's
lone post. -/
theorem getPostsByUserId_spec_witness :
    ∃ fps, getPostsByUserId [samplePost] [sampleUser] "alice" = .ok fps ∧
      fps.length ≤ 100 ∧
      List.Pairwise (fun a b : FullPost => b.post.createdAt ≤ a.post.createdAt) fps ∧
      ∀ fp ∈ fps, fp.post.authorId = sampleUser.id :=
  (getPostsByUserId_spec [samplePost] [sampleUser] "alice").2 sampleUser rfl

/-- C3: a `create` input whose content has length 0 or length over 255 is
rejected with the validation error before any side effect: the whole world
(post store and rate-limiter log) is returned unchanged. -/
theorem create_invalid_content_rejected (st : AppState) (ctx : Ctx)
    (content : String) (now : Nat)
    (h : content.length = 0 ∨ 255 < content.length) :
    create st ctx content now = (.error .badRequest, st) := by
  have hv : contentValid content = false := by
    simp only [contentValid, Bool.and_eq_false_iff, decide_eq_false_iff_not]
    omega
  simp [create, hv]

/-- C3 witness: the empty string is rejected with no state change. -/
theorem create_invalid_content_rejected_witness :
    create ⟨[], []⟩ ⟨some "alice"⟩ "" 0 = (.error .badRequest, ⟨[], []⟩) :=
  create_invalid_content_rejected ⟨[], []⟩ ⟨some "alice"⟩ "" 0 (Or.inl rfl)

/-- C4: for an authenticated `create` with valid content, if the rate
limiter keyed by the author's id reports failure, the call is rejected with
`TOO_MANY_REQUESTS` and the post store is unchanged (no insert). -/
theorem create_rate_limited_no_write (st : AppState) (uid content : String)
    (now : Nat) (hvalid : contentValid content = true)
    (hfail : (ratelimitLimit st.ratelimit uid now).1 = false) :
    (create st ⟨some uid⟩ content now).1 = .error .tooManyRequests ∧
      (create st ⟨some uid⟩ content now).2.posts = st.posts := by
  rcases hrl : ratelimitLimit st.ratelimit uid now with ⟨b, rl⟩
  rw [hrl] at hfail
  subst hfail
  simp [create, hvalid, hrl]

/-- C4 witness: with three fresh hits for the key already logged, a fourth
`create` is rejected and no post is written. -/
theorem create_rate_limited_no_write_witness :
    (create ⟨[], [("alice", 0), ("alice", 0), ("alice", 0)]⟩
        ⟨some "alice"⟩ "hi" 0).1 = .error .tooManyRequests ∧
      (create ⟨[], [("alice", 0), ("alice", 0), ("alice", 0)]⟩
        ⟨some "alice"⟩ "hi" 0).2.posts = [] :=
  create_rate_limited_no_write ⟨[], [("alice", 0), ("alice", 0), ("alice", 0)]⟩
    "alice" "hi" 0 rfl rfl

/-- C6: an authenticated `create` with valid content that passes the
rate-limit gate appends exactly one new row to the store, whose content is
the input content and whose `authorId` is the caller's identity from the
request context, and returns that persisted record (a bare `Post`, without
author enrichment). -/
theorem create_success_inserts (st : AppState) (uid content : String) (now : Nat)
    (hvalid : contentValid content = true)
    (hok : (ratelimitLimit st.ratelimit uid now).1 = true) :
    ∃ p : Post, (create st ⟨some uid⟩ content now).1 = .ok p ∧
      p.content = content ∧ p.authorId = uid ∧
      (create st ⟨some uid⟩ content now).2.posts = st.posts ++ [p] := by
  rcases hrl : ratelimitLimit st.ratelimit uid now with ⟨b, rl⟩
  rw [hrl] at hok
  subst hok
  refine ⟨{ id := st.posts.length, authorId := uid,
            content := content, createdAt := now }, ?_⟩
  simp [create, hvalid, hrl]

/-- C6 witness: a first `create` on the empty world persists exactly the
given content under the caller's id. -/
theorem create_success_inserts_witness :
    ∃ p : Post, (create ⟨[], []⟩ ⟨some "alice"⟩ "hi" 0).1 = .ok p ∧
      p.content = "hi" ∧ p.authorId = "alice" ∧
      (create ⟨[], []⟩ ⟨some "alice"⟩ "hi" 0).2.posts = [] ++ [p] :=
  create_success_inserts ⟨[], []⟩ "alice" "hi" 0 rfl rfl

/-- C8: a `create` call with valid content but no authenticated identity in
the request context is rejected without reaching the store: no rate-limit
consumption, no insert, the world returned unchanged. (The rejection of
unauthenticated callers is `privateProcedure`, modelled from the spec.) -/
theorem create_unauthenticated_rejected (st : AppState) (content : String)
    (now : Nat) (hvalid : contentValid content = true) :
    create st { currentUserId := none } content now
      = (.error .unauthorizedCaller, st) := by
  simp [create, hvalid]

/-- C8 witness: valid content under the prefetch helper's unauthenticated
context is rejected with no state change. -/
theorem create_unauthenticated_rejected_witness :
    create ⟨[], [("bob", 0)]⟩ { currentUserId := none } "hi" 7
      = (.error .unauthorizedCaller, ⟨[], [("bob", 0)]⟩) :=
  create_unauthenticated_rejected ⟨[], [("bob", 0)]⟩ "hi" 7 rfl

/-- C9: input-schema validation runs before the mutation body, so a `create`
whose content fails validation leaves the rate-limiter state exactly as it
was — no token is consumed. -/
theorem create_invalid_no_ratelimit_consumption (st : AppState) (ctx : Ctx)
    (content : String) (now : Nat)
    (hinvalid : contentValid content = false) :
    (create st ctx content now).2.ratelimit = st.ratelimit := by
  simp [create, hinvalid]

/-- C9 witness: an invalid `create` by a caller with one prior hit leaves
the hit log untouched. -/
theorem create_invalid_no_ratelimit_consumption_witness :
    (create ⟨[], [("alice", 3)]⟩ ⟨some "alice"⟩ "" 10).2.ratelimit
      = [("alice", 3)] :=
  create_invalid_no_ratelimit_consumption ⟨[], [("alice", 3)]⟩
    ⟨some "alice"⟩ "" 10 rfl

/-- The world after one `create` call; shorthand for chaining calls. -/
def afterCreate (st : AppState) (uid c : String) (t : Nat) : AppState :=
  (create st ⟨some uid⟩ c t).2

/-- The limiter grants a consumption and logs a hit when fewer than 3 hits
for the key lie in the window. -/
theorem ratelimitLimit_of_count_lt (st : RatelimitState) (key : String) (now : Nat)
    (h : (st.filter (fun x => x.1 == key && decide (now < x.2 + 60))).length < 3) :
    ratelimitLimit st key now = (true, (key, now) :: st) := by
  simp only [ratelimitLimit]
  rw [if_pos h]

/-- The limiter denies, leaving its log unchanged, when 3 or more hits for
the key lie in the window. -/
theorem ratelimitLimit_of_count_ge (st : RatelimitState) (key : String) (now : Nat)
    (h : ¬ (st.filter (fun x => x.1 == key && decide (now < x.2 + 60))).length < 3) :
    ratelimitLimit st key now = (false, st) := by
  simp only [ratelimitLimit]
  rw [if_neg h]

/-- A `create` whose limiter consultation grants succeeds, and its world
carries the limiter's new log. -/
theorem create_of_limit_true (st : AppState) (uid content : String) (now : Nat)
    (rl : RatelimitState) (hvalid : contentValid content = true)
    (h : ratelimitLimit st.ratelimit uid now = (true, rl)) :
    (create st ⟨some uid⟩ content now).1.isOk = true ∧
      (afterCreate st uid content now).ratelimit = rl := by
  simp [create, afterCreate, hvalid, h, Except.isOk, Except.toBool]

/-- A `create` whose limiter consultation denies fails with
`TOO_MANY_REQUESTS`, and its world carries the limiter's (unchanged) log. -/
theorem create_of_limit_false (st : AppState) (uid content : String) (now : Nat)
    (rl : RatelimitState) (hvalid : contentValid content = true)
    (h : ratelimitLimit st.ratelimit uid now = (false, rl)) :
    (create st ⟨some uid⟩ content now).1 = .error .tooManyRequests ∧
      (afterCreate st uid content now).ratelimit = rl := by
  simp [create, afterCreate, hvalid, h]

/-- C7: the policy permits at most 3 consumptions per key per rolling
60-second window. Starting from a log with no hits for the author's key,
three authenticated `create` calls with valid content at times
`t1 ≤ t2 ≤ t3` all succeed; a 4th call within 60 seconds of the first
(hence of all three) is rejected with the rate-limit error, while a 4th
call made once 60 seconds have passed since the last hit succeeds. -/
theorem create_rate_limit_window (st : AppState) (uid c1 c2 c3 c4 : String)
    (t1 t2 t3 now4 now5 : Nat)
    (hclean : ∀ h ∈ st.ratelimit, h.1 ≠ uid)
    (hv1 : contentValid c1 = true) (hv2 : contentValid c2 = true)
    (hv3 : contentValid c3 = true) (hv4 : contentValid c4 = true)
    (h12 : t1 ≤ t2) (h23 : t2 ≤ t3)
    (hwithin : now4 < t1 + 60) (hafter : t3 + 60 ≤ now5) :
    (create st ⟨some uid⟩ c1 t1).1.isOk = true ∧
    (create (afterCreate st uid c1 t1) ⟨some uid⟩ c2 t2).1.isOk = true ∧
    (create (afterCreate (afterCreate st uid c1 t1) uid c2 t2)
        ⟨some uid⟩ c3 t3).1.isOk = true ∧
    (create (afterCreate (afterCreate (afterCreate st uid c1 t1) uid c2 t2)
          uid c3 t3) ⟨some uid⟩ c4 now4).1 = .error .tooManyRequests ∧
    (create (afterCreate (afterCreate (afterCreate st uid c1 t1) uid c2 t2)
          uid c3 t3) ⟨some uid⟩ c4 now5).1.isOk = true := by
  have hfilter0 : ∀ n, st.ratelimit.filter
      (fun x => x.1 == uid && decide (n < x.2 + 60)) = [] := by
    intro n
    apply List.filter_eq_nil_iff.mpr
    intro x hx
    simp only [Bool.and_eq_true, decide_eq_true_eq, beq_iff_eq, not_and]
    intro h1
    exact absurd h1 (hclean x hx)
  have hrl1 : ratelimitLimit st.ratelimit uid t1 = (true, (uid, t1) :: st.ratelimit) :=
    ratelimitLimit_of_count_lt _ _ _ (by rw [hfilter0]; simp)
  obtain ⟨hok1, hs1⟩ := create_of_limit_true st uid c1 t1 _ hv1 hrl1
  have hrl2 : ratelimitLimit ((uid, t1) :: st.ratelimit) uid t2
      = (true, (uid, t2) :: (uid, t1) :: st.ratelimit) := by
    apply ratelimitLimit_of_count_lt
    rw [List.filter_cons]
    split <;> simp [hfilter0 t2]
  obtain ⟨hok2, hs2⟩ := create_of_limit_true (afterCreate st uid c1 t1) uid c2 t2 _
    hv2 (by rw [hs1]; exact hrl2)
  have hrl3 : ratelimitLimit ((uid, t2) :: (uid, t1) :: st.ratelimit) uid t3
      = (true, (uid, t3) :: (uid, t2) :: (uid, t1) :: st.ratelimit) := by
    apply ratelimitLimit_of_count_lt
    rw [List.filter_cons, List.filter_cons]
    split <;> split <;> simp [hfilter0 t3]
  obtain ⟨hok3, hs3⟩ := create_of_limit_true
    (afterCreate (afterCreate st uid c1 t1) uid c2 t2) uid c3 t3 _
    hv3 (by rw [hs2]; exact hrl3)
  have hrl4 : ratelimitLimit ((uid, t3) :: (uid, t2) :: (uid, t1) :: st.ratelimit)
      uid now4 = (false, (uid, t3) :: (uid, t2) :: (uid, t1) :: st.ratelimit) := by
    apply ratelimitLimit_of_count_ge
    have e3 : ((uid == uid) && decide (now4 < t3 + 60)) = true := by
      simp only [beq_self_eq_true, Bool.true_and, decide_eq_true_eq]
      omega
    have e2 : ((uid == uid) && decide (now4 < t2 + 60)) = true := by
      simp only [beq_self_eq_true, Bool.true_and, decide_eq_true_eq]
      omega
    have e1 : ((uid == uid) && decide (now4 < t1 + 60)) = true := by
      simp only [beq_self_eq_true, Bool.true_and, decide_eq_true_eq]
      omega
    rw [List.filter_cons, if_pos e3, List.filter_cons, if_pos e2,
      List.filter_cons, if_pos e1, hfilter0 now4]
    simp
  obtain ⟨hfail4, -⟩ := create_of_limit_false
    (afterCreate (afterCreate (afterCreate st uid c1 t1) uid c2 t2) uid c3 t3)
    uid c4 now4 _ hv4 (by rw [hs3]; exact hrl4)
  have hrl5 : ratelimitLimit ((uid, t3) :: (uid, t2) :: (uid, t1) :: st.ratelimit)
      uid now5 = (true, (uid, now5) :: (uid, t3) :: (uid, t2) :: (uid, t1)
        :: st.ratelimit) := by
    apply ratelimitLimit_of_count_lt
    have e3 : ¬ (((uid == uid) && decide (now5 < t3 + 60)) = true) := by
      simp only [beq_self_eq_true, Bool.true_and, decide_eq_true_eq]
      omega
    have e2 : ¬ (((uid == uid) && decide (now5 < t2 + 60)) = true) := by
      simp only [beq_self_eq_true, Bool.true_and, decide_eq_true_eq]
      omega
    have e1 : ¬ (((uid == uid) && decide (now5 < t1 + 60)) = true) := by
      simp only [beq_self_eq_true, Bool.true_and, decide_eq_true_eq]
      omega
    rw [List.filter_cons, if_neg e3, List.filter_cons, if_neg e2,
      List.filter_cons, if_neg e1, hfilter0 now5]
    simp
  obtain ⟨hok5, -⟩ := create_of_limit_true
    (afterCreate (afterCreate (afterCreate st uid c1 t1) uid c2 t2) uid c3 t3)
    uid c4 now5 _ hv4 (by rw [hs3]; exact hrl5)
  exact ⟨hok1, hok2, hok3, hfail4, hok5⟩

/-- C7 witness: three calls at seconds 0, 1, 2 succeed; a 4th at second 3 is
rejected; a 4th at second 62 succeeds. -/
theorem create_rate_limit_window_witness :
    (create ⟨[], []⟩ ⟨some "alice"⟩ "a" 0).1.isOk = true ∧
    (create (afterCreate ⟨[], []⟩ "alice" "a" 0) ⟨some "alice"⟩ "a" 1).1.isOk
      = true ∧
    (create (afterCreate (afterCreate ⟨[], []⟩ "alice" "a" 0) "alice" "a" 1)
        ⟨some "alice"⟩ "a" 2).1.isOk = true ∧
    (create (afterCreate (afterCreate (afterCreate ⟨[], []⟩ "alice" "a" 0)
          "alice" "a" 1) "alice" "a" 2) ⟨some "alice"⟩ "a" 3).1
      = .error .tooManyRequests ∧
    (create (afterCreate (afterCreate (afterCreate ⟨[], []⟩ "alice" "a" 0)
          "alice" "a" 1) "alice" "a" 2) ⟨some "alice"⟩ "a" 62).1.isOk = true :=
  create_rate_limit_window ⟨[], []⟩ "alice" "a" "a" "a" "a" 0 1 2 3 62
    (by simp) rfl rfl rfl rfl (by omega) (by omega) (by omega) (by omega)

end VercelDemo
